import Mathlib

/-!
# bingwp: a verification development

A shallow embedding of `main.go` (the Bing wallpaper downloader): the size
validator, the feed resolver, the existence check, the publisher (temporary
file, dated backup, rename into place) and the computation of the resized
dimensions, followed by the properties proved about them.
-/

namespace Bingwp

/-! ## Size validation (`szRegexp`, `validateSize`) -/

/-- The character class `[0-9]`. -/
def digitClass : RegularExpression Char :=
  .char '0' + .char '1' + .char '2' + .char '3' + .char '4' +
  .char '5' + .char '6' + .char '7' + .char '8' + .char '9'

/-- The character class `[xX]`. -/
def sepClass : RegularExpression Char := .char 'x' + .char 'X'

/-- The repetition `r+`, one or more times. -/
def onePlus (r : RegularExpression Char) : RegularExpression Char := r * .star r

/-- Source `szRegexp = regexp.MustCompile("(?P<Width>[0-9]+)[xX](?P<Height>[0-9]+)")`.
The two named groups do not change which strings match. The pattern has no
`^` and no `$`. -/
def szRegexp : RegularExpression Char :=
  onePlus digitClass * sepClass * onePlus digitClass

/-- Go `(*Regexp).MatchString`: whether the string contains any match of the
expression, which is whether some substring is matched in full. -/
def MatchString (re : RegularExpression Char) (s : String) : Bool :=
  s.data.tails.any (fun t => t.inits.any (fun w => re.rmatch w))

/-- Source `validateSize`: `return sz == "" || szRegexp.MatchString(sz)`. -/
def validateSize (sz : String) : Bool :=
  sz == "" || MatchString szRegexp sz

/-- The whole-string pattern `^\d+[xX]\d+$` of the specification: one or more
decimal digits, one `x` or `X`, one or more decimal digits, and nothing else. -/
def WholeSize (s : String) : Prop :=
  ∃ (ds1 ds2 : List Char) (c : Char),
    ds1 ≠ [] ∧ ds2 ≠ [] ∧ (∀ d ∈ ds1, d.isDigit = true) ∧ (∀ d ∈ ds2, d.isDigit = true) ∧
    (c = 'x' ∨ c = 'X') ∧ s.data = ds1 ++ c :: ds2

/-! ## Feed resolution (`findImagePath`) -/

/-- One entry of `BingResponse.Images`; a `url` absent from the JSON object
leaves the Go zero value, the empty string. -/
structure ImageEntry where
  Url : String
deriving DecidableEq, Repr

/-- The local type `BingResponse` of `findImagePath`. -/
structure BingResponse where
  Images : List ImageEntry
deriving DecidableEq, Repr

/-- The errors `findImagePath` can return. -/
inductive FindError where
  | unmarshal
  | NoImagesError
  | NoImagePathError
deriving DecidableEq, Repr

/-- Source `findImagePath`, with `json.Unmarshal` taken as the parameter `unmarshal`
(`none` when it reports an error). -/
def findImagePath (unmarshal : List UInt8 → Option BingResponse) (data : List UInt8) :
    Except FindError String :=
  match unmarshal data with
  | none => .error .unmarshal
  | some js =>
    match js.Images with
    | [] => .error .NoImagesError
    | image :: _ =>
      if image.Url.length = 0 then .error .NoImagePathError
      else .ok image.Url

/-! ## Existence check (`fileExists`) -/

/-- What `os.Stat` returns: a file info (of which only `IsDir` is used) and a
nil error, or a nil file info and an error, which `os.IsNotExist` classifies. -/
inductive StatResult where
  | info (isDir : Bool)
  | errNotExist
  | errOther
deriving DecidableEq, Repr

/-- Source `fileExists`: `none` is the run-time panic of calling `IsDir` on the nil
file info that accompanies an error.

    info, err := os.Stat(filename)
    if os.IsNotExist(err) { return false }
    return !info.IsDir()
-/
def fileExists (st : StatResult) : Option Bool :=
  match st with
  | .errNotExist => some false
  | .info isDir => some (!isDir)
  | .errOther => none

/-! ## Resized dimensions (`writeResizedImage`, lines 186-194)

`float64` values are modelled exactly, as the rationals they denote: every
operation is the exact rational result rounded to the nearest value with a
53-bit significand, ties to even (IEEE 754 binary64, the arithmetic of Go's
`float64`). The exponent range is not modelled: the values that occur lie
between `2^-63` and `2^63`, far inside it. -/

/-- Round to the nearest integer, ties to the even one. -/
def roundHalfEven (y : ℚ) : ℤ :=
  let f := ⌊y⌋
  let r := y - f
  if r < 1 / 2 then f
  else if 1 / 2 < r then f + 1
  else if f % 2 = 0 then f
  else f + 1

/-- The `float64` nearest to a non-negative rational: with `e = ⌊log₂ x⌋`,
the significand `x / 2^(e-52)` is rounded to an integer. -/
def round64 (x : ℚ) : ℚ :=
  if x ≤ 0 then 0
  else
    let e := Int.log 2 x
    (roundHalfEven (x * (2 : ℚ) ^ (52 - e)) : ℚ) * (2 : ℚ) ^ (e - 52)

/-- Conversion `float64(n)` for a non-negative `int`. -/
def toFloat64 (n : Nat) : ℚ := round64 (n : ℚ)

/-- Division `a / b` on `float64`, for `b ≠ 0`. -/
def fdiv (a b : ℚ) : ℚ := round64 (a / b)

/-- Product `a * b` on `float64`. -/
def fmul (a b : ℚ) : ℚ := round64 (a * b)

/-- Conversion `int(f)` for a non-negative `float64`: truncation. -/
def toInt (f : ℚ) : Nat := ⌊f⌋.toNat

/-- The scale factor of `writeResizedImage`, from the source bounds
`sw = img.Bounds().Max.X`, `sh = img.Bounds().Max.Y` and the requested `w`, `h`:

    minRatio := math.Min(float64(w)/float64(sw), float64(h)/float64(sh))
-/
def minRatio (sw sh w h : Nat) : ℚ :=
  min (fdiv (toFloat64 w) (toFloat64 sw)) (fdiv (toFloat64 h) (toFloat64 sh))

/-- The rectangle passed to `image.NewRGBA`:

    int(float64(sw)*minRatio), int(float64(sh)*minRatio)

`none` when a source bound is 0: the quotient is then not a finite number. -/
def outputSize (sw sh w h : Nat) : Option (Nat × Nat) :=
  if sw = 0 ∨ sh = 0 then none
  else
    some (toInt (fmul (toFloat64 sw) (minRatio sw sh w h)),
      toInt (fmul (toFloat64 sh) (minRatio sw sh w h)))

/-- The scale factor of the specification, `min(tw / sw, th / sh)` in exact
arithmetic. -/
def idealRatio (sw sh tw th : Nat) : ℚ := min ((tw : ℚ) / sw) ((th : ℚ) / sh)

/-! ## The file system -/

/-- File contents, `[]byte`. -/
abbrev Bytes := List UInt8

/-- A clean absolute path (what `filepath.Abs` hands to `saveAndBackupImage`),
as the list of its names from the root down. -/
abbrev Path := List String

/-- What a path can hold. -/
inductive Node where
  | file (content : Bytes)
  | dir
deriving DecidableEq, Repr

/-- A file system state: what each path holds, if anything. -/
abbrev FS := Path → Option Node

/-- The state with path `p` changed to hold `n`. -/
def FS.set (fs : FS) (p : Path) (n : Option Node) : FS :=
  fun q => if q = p then n else fs q

/-- Whether the path holds a regular file. -/
def isRegular : Option Node → Bool
  | some (.file _) => true
  | _ => false

/-- Whether the path lies below a regular file: some proper prefix of it holds
one. The operating system then fails with `ENOTDIR`. -/
def belowFile (fs : FS) (p : Path) : Bool :=
  (List.range p.length).any (fun k => isRegular (fs (p.take k)))

/-- Go `filepath.Dir` on a clean absolute path. -/
def Dir (p : Path) : Path := p.dropLast

/-- Go `filepath.Join(dir, name)` for a single name. -/
def Join (dir : Path) (name : String) : Path := dir ++ [name]

/-- A calendar date. -/
structure Date where
  year : Nat
  month : Nat
  day : Nat
deriving DecidableEq, Repr

/-- What the operating system and the clock decide during one call. -/
structure Env where
  /-- Successive values of the random number source of `os.CreateTemp`. -/
  rand : Nat → Nat
  /-- The directory refuses the creation of a file. -/
  createDenied : Bool
  /-- Number of bytes the temporary file accepts before a write fails
  (`none`: no write fails). -/
  writeCap : Option Nat
  /-- Paths at which `os.Stat` fails with an error other than not-exist. -/
  statFault : Path → Bool
  /-- Renames the operating system refuses. -/
  renameFault : Path → Path → Bool
  /-- Paths whose removal the operating system refuses (a directory that
  allows creating and denies unlinking, for one). -/
  removeFault : Path → Bool
  /-- The date of `time.Now().AddDate(0, 0, -1)`. -/
  yesterday : Date

/-- Go `appendInt` of package `time`: decimal digits, zero-padded to `width`. -/
def appendInt (x width : Nat) : List Char :=
  List.replicate (width - (Nat.toDigits 10 x).length) '0' ++ Nat.toDigits 10 x

/-- The name `yesterday.Format("20060102.jpg")`. -/
def formatDate (d : Date) : String :=
  String.mk (appendInt d.year 4 ++ appendInt d.month 2 ++ appendInt d.day 2 ++ ".jpg".data)

/-- The name `os.CreateTemp` forms from the pattern `tmp_*.jpg` and the random
value `r`. -/
def tmpName (r : Nat) : String :=
  String.mk ("tmp_".data ++ Nat.toDigits 10 r ++ ".jpg".data)

/-- The loop of `os.CreateTemp`: the first candidate name that does not exist
yet, giving up after `tries` names that do. -/
def createTempLoop (rand : Nat → Nat) (fs : FS) (dir : Path) : Nat → Nat → Option Path
  | 0, _ => none
  | tries + 1, i =>
    if (fs (Join dir (tmpName (rand i)))).isNone then some (Join dir (tmpName (rand i)))
    else createTempLoop rand fs dir tries (i + 1)

/-- Go `os.CreateTemp(dir, "tmp_*.jpg")`: the path of the new empty file and
the state with it, or `none` on error (creation refused, `dir` not a
directory or below a regular file, or every candidate name taken). -/
def CreateTemp (env : Env) (fs : FS) (dir : Path) : Option (Path × FS) :=
  if env.createDenied || belowFile fs dir then none
  else
    match fs dir with
    | some .dir =>
      match createTempLoop env.rand fs dir 10000 0 with
      | some tmp => some (tmp, fs.set tmp (some (.file [])))
      | none => none
    | _ => none

/-- Writing `bs` to the freshly created file `p`: the new state and whether
every byte was written. A failing write leaves the bytes written before it. -/
def writeBytes (env : Env) (fs : FS) (p : Path) (bs : Bytes) : FS × Bool :=
  match env.writeCap with
  | none => (fs.set p (some (.file bs)), true)
  | some cap =>
    if bs.length ≤ cap then (fs.set p (some (.file bs)), true)
    else (fs.set p (some (.file (bs.take cap))), false)

/-- Go `os.Stat`: the file info of what the path holds, the not-exist error
when it holds nothing, another error when the operating system reports one
or the path lies below a regular file (`ENOTDIR`). -/
def Stat (env : Env) (fs : FS) (p : Path) : StatResult :=
  if env.statFault p || belowFile fs p then .errOther
  else
    match fs p with
    | none => .errNotExist
    | some .dir => .info true
    | some (.file _) => .info false

/-- Go `os.Rename` of a regular file, `none` on error: it fails when the source
is missing or the target is a directory, does nothing when source and target
are one path, and otherwise replaces the target. This program only renames
regular files; a directory as source is reported as an error. -/
def Rename (env : Env) (fs : FS) (oldp newp : Path) : Option FS :=
  if env.renameFault oldp newp then none
  else
    match fs oldp with
    | some (.file c) =>
      if oldp = newp then some fs
      else
        match fs newp with
        | some .dir => none
        | _ => some ((fs.set oldp none).set newp (some (.file c)))
    | _ => none

/-- Go `os.Remove` of a regular file: the new state and whether it succeeded.
It fails, changing nothing, when the operating system refuses or no file is
at the path. This program only removes its temporary file; a directory is
reported as an error. -/
def Remove (env : Env) (fs : FS) (p : Path) : FS × Bool :=
  if env.removeFault p then (fs, false)
  else
    match fs p with
    | some (.file _) => (fs.set p none, true)
    | _ => (fs, false)

/-! ## The publisher (`writeResizedImage`, `saveAndBackupImage`) -/

/-- The image library, as far as this program uses it. -/
structure Codec where
  /-- Go `image.Decode`: the bounds `Max.X`, `Max.Y` of the decoded image, `none`
  when it returns an error. -/
  decode : Bytes → Option (Nat × Nat)
  /-- What `jpeg.Encode` emits for the decoded image scaled by
  `draw.NearestNeighbor` to the given width and height, `none` when it
  reports an error of its own. -/
  scaleEncode : Bytes → Nat → Nat → Option Bytes

/-- A match of `szRegexp` starting at the head of `t`: its two groups. The
repetitions are greedy, and a shorter first group can not be followed by the
separator, so each group is a maximal run of digits. -/
def matchSizeAt (t : List Char) : Option (List Char × List Char) :=
  let ds1 := t.takeWhile Char.isDigit
  if ds1 = [] then none
  else
    match t.dropWhile Char.isDigit with
    | c :: rest =>
      if c = 'x' ∨ c = 'X' then
        let ds2 := rest.takeWhile Char.isDigit
        if ds2 = [] then none else some (ds1, ds2)
      else none
    | [] => none

/-- Go `(*Regexp).FindStringSubmatch` on `szRegexp`: the groups of the leftmost match. -/
def FindStringSubmatch : List Char → Option (List Char × List Char)
  | [] => none
  | c :: t =>
    match matchSizeAt (c :: t) with
    | some g => some g
    | none => FindStringSubmatch t

/-- Go `strconv.Atoi` on a string of decimal digits, its error discarded: the
value, or the largest `int` when the value does not fit. -/
def Atoi (ds : List Char) : Nat :=
  min (ds.foldl (fun acc c => 10 * acc + (c.toNat - '0'.toNat)) 0) (2 ^ 63 - 1)

/-- Whether `image.NewRGBA` panics on a `w` by `h` rectangle: the length of
the pixel buffer, `4 * w * h`, computed in two steps by `mul3NonNeg`, does not
fit an `int`. The memory the buffer needs is not modelled. -/
def newRGBAPanics (w h : Nat) : Bool :=
  decide (2 ^ 64 ≤ 4 * w) || decide (2 ^ 63 ≤ 4 * w * h)

/-- How `writeResizedImage` ends. -/
inductive ResizeResult where
  | ok (fs : FS)
  | err (fs : FS)
  | panic (fs : FS)

/-- Source `writeResizedImage(data, dst, sz)`, `dst` being the open file at path
`dst`. It panics where `sizes[1]` indexes the nil slice of a size that has no
match and where `image.NewRGBA` rejects the rectangle; the model also stops
for a source without extent. -/
def writeResizedImage (codec : Codec) (env : Env) (fs : FS) (data : Bytes) (dst : Path)
    (sz : String) : ResizeResult :=
  match codec.decode data with
  | none => .err fs
  | some (sw, sh) =>
    match FindStringSubmatch sz.data with
    | none => .panic fs
    | some (ws, hs) =>
      match outputSize sw sh (Atoi ws) (Atoi hs) with
      | none => .panic fs
      | some (ow, oh) =>
        if newRGBAPanics ow oh then .panic fs
        else
          match codec.scaleEncode data ow oh with
          | none => .err fs
          | some bs =>
            if (writeBytes env fs dst bs).2 then .ok (writeBytes env fs dst bs).1
            else .err (writeBytes env fs dst bs).1

/-- The four places where `saveAndBackupImage` returns an error. -/
inductive SaveError where
  | createTemp
  | saveImage
  | backup
  | rename
deriving DecidableEq, Repr

/-- How a call ends: it returns (`err = none` for a nil error) or panics;
either way it leaves a file system state. -/
inductive Outcome where
  | returned (err : Option SaveError) (fs : FS)
  | panicked (fs : FS)

/-- The path the previous file is moved to:
`filepath.Join(fileDir, yesterday.Format("20060102.jpg"))`. -/
def prevDateFileName (env : Env) (out : Path) : Path :=
  Join (Dir out) (formatDate env.yesterday)

/-- The last step of `saveAndBackupImage`: `os.Rename(tmp.Name(), out)`. -/
def promote (env : Env) (fs : FS) (tmp out : Path) : Outcome :=
  match Rename env fs tmp out with
  | none => .returned (some .rename) fs
  | some fs' => .returned none fs'

/-- The steps of `saveAndBackupImage` after the temporary file is written:
the existence check, the backup of the previous file, the promotion. -/
def backupAndPromote (env : Env) (fs : FS) (tmp out : Path) : Outcome :=
  match fileExists (Stat env fs out) with
  | none => .panicked fs
  | some true =>
    match Rename env fs out (prevDateFileName env out) with
    | none => .returned (some .backup) fs
    | some fs' => promote env fs' tmp out
  | some false => promote env fs tmp out

/-- Source `saveAndBackupImage(data, out, sz)`. The results of `io.Copy` and
of `os.Remove` are discarded, as in the source; the deferred `tmp.Close()`
changes no content. -/
def saveAndBackupImage (codec : Codec) (env : Env) (fs : FS) (data : Bytes) (out : Path)
    (sz : String) : Outcome :=
  match CreateTemp env fs (Dir out) with
  | none => .returned (some .createTemp) fs
  | some (tmp, fs1) =>
    if sz ≠ "" then
      match writeResizedImage codec env fs1 data tmp sz with
      | .err fs2 => .returned (some .saveImage) (Remove env fs2 tmp).1
      | .panic fs2 => .panicked fs2
      | .ok fs2 => backupAndPromote env fs2 tmp out
    else
      backupAndPromote env (writeBytes env fs1 tmp data).1 tmp out

/-- The file system state a call leaves. -/
def Outcome.fs : Outcome → FS
  | .returned _ fs => fs
  | .panicked fs => fs

/-- The call returns a nil error. -/
def Outcome.returnsNil : Outcome → Bool
  | .returned none _ => true
  | _ => false

/-- The call returns a non-nil error. -/
def Outcome.returnsError : Outcome → Bool
  | .returned (some _) _ => true
  | _ => false

/-- The call panics. -/
def Outcome.panics : Outcome → Bool
  | .panicked _ => true
  | _ => false

/-! ## Concrete states for the examples -/

/-- The directory `/pics`, empty. -/
def emptyPics : FS := fun p => if p = ["pics"] then some .dir else none

/-- The directory `/pics` holding `daily.jpg` with content `1, 2`. -/
def picsWithDaily : FS := fun p =>
  if p = ["pics"] then some .dir
  else if p = ["pics", "daily.jpg"] then some (.file [1, 2])
  else none

/-- The directory `/pics` holding `20261103.jpg` with content `1, 2`. -/
def picsWithDated : FS := fun p =>
  if p = ["pics"] then some .dir
  else if p = ["pics", "20261103.jpg"] then some (.file [1, 2])
  else none

/-- A run on 4 November 2026 in which nothing fails. -/
def calmEnv : Env where
  rand := fun i => i + 7
  createDenied := false
  writeCap := none
  statFault := fun _ => false
  renameFault := fun _ _ => false
  removeFault := fun _ => false
  yesterday := ⟨2026, 11, 3⟩

/-- As `calmEnv`, the temporary file accepting one byte before writes fail
(a full disk). -/
def fullDiskEnv : Env := { calmEnv with writeCap := some 1 }

/-- As `calmEnv`, `os.Stat` failing at every path with an error other than
not-exist (as it does for a name longer than the file system allows). -/
def statErrorEnv : Env := { calmEnv with statFault := fun _ => true }

/-- As `calmEnv`, the operating system refusing every removal (a directory
that allows creating and denies unlinking). -/
def noUnlinkEnv : Env := { calmEnv with removeFault := fun _ => true }

/-- A codec that decodes nothing. -/
def rejectingCodec : Codec where
  decode := fun _ => none
  scaleEncode := fun _ _ _ => none

/-! ## Lemmas on the size pattern -/

theorem digit_mem_digitClass (d : Char) (h : d.isDigit = true) :
    [d] ∈ digitClass.matches' := by
  have hv : 48 ≤ d.val.toNat ∧ d.val.toNat ≤ 57 := by
    simpa [Char.isDigit, UInt32.le_def, Nat.le_antisymm_iff] using h
  obtain ⟨h1, h2⟩ := hv
  have key : d = '0' ∨ d = '1' ∨ d = '2' ∨ d = '3' ∨ d = '4' ∨
      d = '5' ∨ d = '6' ∨ d = '7' ∨ d = '8' ∨ d = '9' := by
    have hcases : d.val.toNat = 48 ∨ d.val.toNat = 49 ∨ d.val.toNat = 50 ∨ d.val.toNat = 51 ∨
        d.val.toNat = 52 ∨ d.val.toNat = 53 ∨ d.val.toNat = 54 ∨ d.val.toNat = 55 ∨
        d.val.toNat = 56 ∨ d.val.toNat = 57 := by omega
    have hext : ∀ c : Char, d.val.toNat = c.val.toNat → d = c := by
      intro c hc
      apply Char.ext
      exact UInt32.ext hc
    rcases hcases with h | h | h | h | h | h | h | h | h | h
    · exact Or.inl (hext '0' h)
    · exact Or.inr (Or.inl (hext '1' h))
    · exact Or.inr (Or.inr (Or.inl (hext '2' h)))
    · exact Or.inr (Or.inr (Or.inr (Or.inl (hext '3' h))))
    · exact Or.inr (Or.inr (Or.inr (Or.inr (Or.inl (hext '4' h)))))
    · exact Or.inr (Or.inr (Or.inr (Or.inr (Or.inr (Or.inl (hext '5' h))))))
    · exact Or.inr (Or.inr (Or.inr (Or.inr (Or.inr (Or.inr (Or.inl (hext '6' h)))))))
    · exact Or.inr (Or.inr (Or.inr (Or.inr (Or.inr (Or.inr (Or.inr (Or.inl (hext '7' h))))))))
    · exact Or.inr (Or.inr (Or.inr (Or.inr (Or.inr (Or.inr (Or.inr (Or.inr (Or.inl (hext '8' h)))))))))
    · exact Or.inr (Or.inr (Or.inr (Or.inr (Or.inr (Or.inr (Or.inr (Or.inr (Or.inr (hext '9' h)))))))))
  simp only [digitClass, RegularExpression.matches'_add, RegularExpression.matches'_char,
    Language.mem_add]
  rcases key with h | h | h | h | h | h | h | h | h | h <;> subst h <;>
    repeat (first
      | exact Set.mem_singleton _
      | exact Or.inr (Set.mem_singleton _)
      | apply Or.inl)

theorem digits_mem_onePlus (ds : List Char) (hne : ds ≠ [])
    (hall : ∀ d ∈ ds, d.isDigit = true) : ds ∈ (onePlus digitClass).matches' := by
  cases ds with
  | nil => exact absurd rfl hne
  | cons d rest =>
    rw [onePlus, RegularExpression.matches'_mul, RegularExpression.matches'_star]
    refine Language.mem_mul.mpr ⟨[d], digit_mem_digitClass d (hall d (by simp)), rest, ?_, by simp⟩
    rw [Language.mem_kstar]
    have hflat : ∀ l : List Char, l = (l.map (fun c => [c])).flatten := by
      intro l
      induction l with
      | nil => rfl
      | cons a t ih => simpa using ih
    refine ⟨rest.map (fun c => [c]), hflat rest, ?_⟩
    intro y hy
    obtain ⟨c, hc, rfl⟩ := List.mem_map.mp hy
    exact digit_mem_digitClass c (hall c (by simp [hc]))

theorem sep_mem_sepClass (c : Char) (hc : c = 'x' ∨ c = 'X') : [c] ∈ sepClass.matches' := by
  simp only [sepClass, RegularExpression.matches'_add, RegularExpression.matches'_char,
    Language.mem_add]
  rcases hc with h | h <;> subst h
  · exact Or.inl (Set.mem_singleton _)
  · exact Or.inr (Set.mem_singleton _)

theorem matchString_of_rmatch (re : RegularExpression Char) (s : String)
    (h : re.rmatch s.data = true) : MatchString re s = true := by
  unfold MatchString
  rw [List.any_eq_true]
  refine ⟨s.data, by simp, ?_⟩
  rw [List.any_eq_true]
  exact ⟨s.data, by simp, h⟩

theorem wholeSize_matchString (s : String) (h : WholeSize s) :
    MatchString szRegexp s = true := by
  obtain ⟨ds1, ds2, c, h1, h2, hd1, hd2, hc, hs⟩ := h
  apply matchString_of_rmatch
  rw [RegularExpression.rmatch_iff_matches', hs, szRegexp, RegularExpression.matches'_mul,
    RegularExpression.matches'_mul]
  refine Language.mem_mul.mpr ⟨ds1 ++ [c], ?_, ds2, digits_mem_onePlus ds2 h2 hd2, by simp⟩
  exact Language.mem_mul.mpr ⟨ds1, digits_mem_onePlus ds1 h1 hd1, [c], sep_mem_sepClass c hc, rfl⟩

/-! ## Lemmas on file names and the file system -/

theorem digitChar_isDigit (n : Nat) (h : n < 10) : (Nat.digitChar n).isDigit = true := by
  interval_cases n <;> decide

theorem toDigitsCore_isDigit (fuel : Nat) : ∀ (n : Nat) (acc : List Char),
    (∀ c ∈ acc, c.isDigit = true) → ∀ c ∈ Nat.toDigitsCore 10 fuel n acc, c.isDigit = true := by
  induction fuel with
  | zero =>
    intro n acc hacc c hc
    exact hacc c (by simpa [Nat.toDigitsCore] using hc)
  | succ k ih =>
    intro n acc hacc c hc
    have hd : (Nat.digitChar (n % 10)).isDigit = true :=
      digitChar_isDigit _ (Nat.mod_lt _ (by decide))
    have hacc' : ∀ c ∈ Nat.digitChar (n % 10) :: acc, c.isDigit = true := by
      intro c hc
      rcases List.mem_cons.mp hc with h | h
      · rw [h]; exact hd
      · exact hacc c h
    unfold Nat.toDigitsCore at hc
    by_cases h0 : n / 10 = 0
    · simp only [h0, if_true] at hc
      exact hacc' c hc
    · simp only [h0, if_false] at hc
      exact ih _ _ hacc' c hc

theorem appendInt_isDigit (x width : Nat) : ∀ c ∈ appendInt x width, c.isDigit = true := by
  intro c hc
  unfold appendInt at hc
  rcases List.mem_append.mp hc with h | h
  · rw [(List.mem_replicate.mp h).2]; decide
  · exact toDigitsCore_isDigit _ _ _ (by simp) c h

theorem appendInt_length (x width : Nat) : width ≤ (appendInt x width).length := by
  unfold appendInt
  rw [List.length_append, List.length_replicate]
  omega

/-- A temporary name is never a dated backup name: the one starts with `t`,
the other with a digit. -/
theorem tmpName_ne_formatDate (r : Nat) (d : Date) : tmpName r ≠ formatDate d := by
  intro h
  have hdata : (tmpName r).data = (formatDate d).data := congrArg String.data h
  have hlen := appendInt_length d.year 4
  cases hy : appendInt d.year 4 with
  | nil => rw [hy] at hlen; simp at hlen
  | cons c t =>
    have hc : c.isDigit = true := appendInt_isDigit d.year 4 c (by rw [hy]; simp)
    have hhead : 't' = c := by
      simp only [tmpName, formatDate, hy] at hdata
      exact (List.cons.inj hdata).1
    rw [← hhead] at hc
    exact absurd hc (by decide)

theorem Join_injective (dir : Path) (a b : String) (h : Join dir a = Join dir b) : a = b := by
  unfold Join at h
  have := List.append_cancel_left h
  simpa using this

theorem createTempLoop_spec (rand : Nat → Nat) (fs : FS) (dir : Path) :
    ∀ (tries i : Nat) (tmp : Path), createTempLoop rand fs dir tries i = some tmp →
      (∃ r, tmp = Join dir (tmpName r)) ∧ fs tmp = none := by
  intro tries
  induction tries with
  | zero => intro i tmp h; simp [createTempLoop] at h
  | succ k ih =>
    intro i tmp h
    unfold createTempLoop at h
    split at h
    · rename_i hnone
      have : Join dir (tmpName (rand i)) = tmp := by simpa using h
      subst this
      exact ⟨⟨rand i, rfl⟩, Option.isNone_iff_eq_none.mp hnone⟩
    · exact ih _ _ h

/-- What a successful `os.CreateTemp` gives: a name of the pattern, in the
directory, that held nothing, now holding an empty file. -/
theorem CreateTemp_spec (env : Env) (fs : FS) (dir tmp : Path) (fs1 : FS)
    (h : CreateTemp env fs dir = some (tmp, fs1)) :
    (∃ r, tmp = Join dir (tmpName r)) ∧ fs tmp = none ∧
      fs1 = fs.set tmp (some (.file [])) := by
  unfold CreateTemp at h
  split at h
  · exact absurd h (by simp)
  · split at h
    · split at h
      · rename_i tmp' hloop
        have hpair : tmp' = tmp ∧ fs.set tmp' (some (.file [])) = fs1 := by simpa using h
        obtain ⟨rfl, rfl⟩ := hpair
        obtain ⟨hr, hnone⟩ := createTempLoop_spec _ _ _ _ _ _ hloop
        exact ⟨hr, hnone, rfl⟩
      · exact absurd h (by simp)
    · exact absurd h (by simp)

theorem FS.set_same (fs : FS) (p : Path) (n : Option Node) : (fs.set p n) p = n := by
  simp [FS.set]

theorem FS.set_other (fs : FS) (p q : Path) (n : Option Node) (h : q ≠ p) :
    (fs.set p n) q = fs q := by
  simp [FS.set, h]

/-- Creating a file where nothing was and removing it gives the state back. -/
theorem FS.set_set_none (fs : FS) (p : Path) (n : Option Node) (h : fs p = none) :
    (fs.set p n).set p none = fs := by
  funext q
  by_cases hq : q = p
  · subst hq; simp [FS.set, h]
  · simp [FS.set, hq]

theorem writeBytes_complete (env : Env) (fs : FS) (p : Path) (bs : Bytes)
    (h : ∀ cap, env.writeCap = some cap → bs.length ≤ cap) :
    (writeBytes env fs p bs).1 = fs.set p (some (.file bs)) := by
  unfold writeBytes
  cases hc : env.writeCap with
  | none => rfl
  | some cap => simp [h cap hc]

theorem promote_returnsNil (env : Env) (fs : FS) (tmp out : Path) (data : Bytes)
    (htmp : fs tmp = some (.file data)) (hne : tmp ≠ out)
    (hret : (promote env fs tmp out).returnsNil = true) :
    (promote env fs tmp out).fs = (fs.set tmp none).set out (some (.file data)) := by
  unfold promote Rename at hret ⊢
  by_cases hf : env.renameFault tmp out = true
  · simp [hf, Outcome.returnsNil] at hret
  · cases hout : fs out with
    | none => simp [hf, htmp, hne, hout, Outcome.fs]
    | some n =>
      cases n with
      | dir => simp [hf, htmp, hne, hout, Outcome.returnsNil] at hret
      | file c => simp [hf, htmp, hne, hout, Outcome.fs]

theorem CreateTemp_dir (env : Env) (fs : FS) (dir tmp : Path) (fs1 : FS)
    (h : CreateTemp env fs dir = some (tmp, fs1)) :
    fs dir = some .dir ∧ belowFile fs dir = false := by
  unfold CreateTemp at h
  split at h
  · exact absurd h (by simp)
  · rename_i hc
    have hb : belowFile fs dir = false := by
      cases hbf : belowFile fs dir with
      | false => rfl
      | true => simp [hbf] at hc
    split at h
    · rename_i hd
      exact ⟨hd, hb⟩
    · exact absurd h (by simp)

/-- A path in a directory that is not below a regular file is not below one. -/
theorem belowFile_of_dir (fs : FS) (out : Path) (hd : fs (Dir out) = some .dir)
    (hb : belowFile fs (Dir out) = false) : belowFile fs out = false := by
  cases hbo : belowFile fs out with
  | false => rfl
  | true =>
    exfalso
    unfold belowFile at hbo
    obtain ⟨k, hk, hreg⟩ := List.any_eq_true.mp hbo
    have hk' : k < out.length := List.mem_range.mp hk
    have hlen : (Dir out).length = out.length - 1 := by simp [Dir]
    rcases Nat.lt_or_ge k (out.length - 1) with hlt | hge
    · have htake : (Dir out).take k = out.take k := by
        unfold Dir
        rw [List.dropLast_eq_take, List.take_take, Nat.min_eq_left hlt.le]
      have : belowFile fs (Dir out) = true := by
        unfold belowFile
        exact List.any_eq_true.mpr ⟨k, List.mem_range.mpr (by omega), by rw [htake]; exact hreg⟩
      rw [hb] at this
      exact absurd this (by simp)
    · have hk2 : k = out.length - 1 := by omega
      have htake : out.take k = Dir out := by
        unfold Dir
        rw [List.dropLast_eq_take, hk2]
      rw [htake, hd] at hreg
      simp [isRegular] at hreg

/-- Changing a path at least as long as `p` does not change whether `p` lies
below a regular file. -/
theorem belowFile_set (fs : FS) (p q : Path) (n : Option Node) (hlen : p.length ≤ q.length) :
    belowFile (fs.set q n) p = belowFile fs p := by
  have hpt : ∀ k, k < p.length → (fs.set q n) (p.take k) = fs (p.take k) := by
    intro k hk
    have hne : p.take k ≠ q := by
      intro h
      have : (p.take k).length = q.length := by rw [h]
      rw [List.length_take] at this
      omega
    exact FS.set_other _ _ _ _ hne
  have hall : ∀ l : List Nat, (∀ k ∈ l, k < p.length) →
      l.any (fun k => isRegular ((fs.set q n) (p.take k)))
        = l.any (fun k => isRegular (fs (p.take k))) := by
    intro l
    induction l with
    | nil => intro _; rfl
    | cons a t ih =>
      intro hl
      rw [List.any_cons, List.any_cons, hpt a (hl a (by simp)),
        ih (fun k hk => hl k (by simp [hk]))]
  unfold belowFile
  exact hall _ (fun k hk => List.mem_range.mp hk)

theorem Join_length (dir : Path) (name : String) : (Join dir name).length = dir.length + 1 := by
  simp [Join]

/-- After a successful `os.CreateTemp` in the directory of `out` and any write
to the temporary file, `out` is not below a regular file. -/
theorem belowFile_after_CreateTemp (env : Env) (fs : FS) (out tmp : Path) (fs1 : FS)
    (n : Option Node) (h : CreateTemp env fs (Dir out) = some (tmp, fs1)) :
    belowFile (fs1.set tmp n) out = false := by
  obtain ⟨hd, hb⟩ := CreateTemp_dir env fs (Dir out) tmp fs1 h
  obtain ⟨⟨r, hr⟩, _, hfs1⟩ := CreateTemp_spec env fs (Dir out) tmp fs1 h
  have hlen : out.length ≤ tmp.length := by
    rw [hr, Join_length]
    simp [Dir]
    omega
  rw [belowFile_set _ _ _ _ hlen, hfs1, belowFile_set _ _ _ _ hlen]
  exact belowFile_of_dir fs out hd hb

theorem Stat_file (env : Env) (fs : FS) (p : Path) (c : Bytes)
    (hs : env.statFault p = false) (hb : belowFile fs p = false) (hp : fs p = some (.file c)) :
    Stat env fs p = .info false := by
  simp [Stat, hs, hb, hp]

theorem Stat_none (env : Env) (fs : FS) (p : Path)
    (hs : env.statFault p = false) (hb : belowFile fs p = false) (hp : fs p = none) :
    Stat env fs p = .errNotExist := by
  simp [Stat, hs, hb, hp]

theorem Stat_fault (env : Env) (fs : FS) (p : Path) (hs : env.statFault p = true) :
    Stat env fs p = .errOther := by
  simp [Stat, hs]

theorem Rename_fault (env : Env) (fs : FS) (o n : Path) (hf : env.renameFault o n = true) :
    Rename env fs o n = none := by
  simp [Rename, hf]

theorem Rename_onto_dir (env : Env) (fs : FS) (o n : Path) (hne : o ≠ n)
    (hn : fs n = some .dir) : Rename env fs o n = none := by
  unfold Rename
  split
  · rfl
  · split
    · simp [hne, hn]
    · rfl

theorem Rename_file (env : Env) (fs : FS) (o n : Path) (c : Bytes)
    (hf : env.renameFault o n = false) (ho : fs o = some (.file c)) (hne : o ≠ n)
    (hn : fs n ≠ some .dir) :
    Rename env fs o n = some ((fs.set o none).set n (some (.file c))) := by
  unfold Rename
  simp only [hf, ho, hne, if_false, Bool.false_eq_true]

/-- The steps after the write, when the destination holds a regular file and
the call returns nil: the file moved to the dated name, the temporary file
moved to the destination. -/
theorem backupAndPromote_existing (env : Env) (fs : FS) (tmp out : Path) (old data : Bytes)
    (hout : fs out = some (.file old)) (htmp : fs tmp = some (.file data))
    (hb : belowFile fs out = false)
    (h1 : tmp ≠ out) (h2 : tmp ≠ prevDateFileName env out) (h3 : out ≠ prevDateFileName env out)
    (hret : (backupAndPromote env fs tmp out).returnsNil = true) :
    (backupAndPromote env fs tmp out).fs =
      ((((fs.set out none).set (prevDateFileName env out) (some (.file old))).set tmp none).set
        out (some (.file data))) := by
  unfold backupAndPromote at hret ⊢
  cases hs : env.statFault out with
  | true =>
    rw [Stat_fault env fs out hs] at hret
    simp [fileExists, Outcome.returnsNil] at hret
  | false =>
    rw [Stat_file env fs out old hs hb hout] at hret ⊢
    simp only [fileExists, Bool.not_false] at hret ⊢
    cases hf : env.renameFault out (prevDateFileName env out) with
    | true =>
      rw [Rename_fault env fs _ _ hf] at hret
      simp [Outcome.returnsNil] at hret
    | false =>
      by_cases hd : fs (prevDateFileName env out) = some .dir
      · rw [Rename_onto_dir env fs _ _ h3 hd] at hret
        simp [Outcome.returnsNil] at hret
      · rw [Rename_file env fs _ _ old hf hout h3 hd] at hret ⊢
        simp only at hret ⊢
        apply promote_returnsNil env _ tmp out data _ h1 hret
        rw [FS.set_other _ _ _ _ h2, FS.set_other _ _ _ _ h1, htmp]

/-- The steps after the write, when nothing is at the destination and the
call returns nil: the temporary file moved to the destination. -/
theorem backupAndPromote_fresh (env : Env) (fs : FS) (tmp out : Path) (data : Bytes)
    (hout : fs out = none) (htmp : fs tmp = some (.file data))
    (hb : belowFile fs out = false) (h1 : tmp ≠ out)
    (hret : (backupAndPromote env fs tmp out).returnsNil = true) :
    (backupAndPromote env fs tmp out).fs = (fs.set tmp none).set out (some (.file data)) := by
  unfold backupAndPromote at hret ⊢
  cases hs : env.statFault out with
  | true =>
    rw [Stat_fault env fs out hs] at hret
    simp [fileExists, Outcome.returnsNil] at hret
  | false =>
    rw [Stat_none env fs out hs hb hout] at hret ⊢
    simp only [fileExists] at hret ⊢
    exact promote_returnsNil env fs tmp out data htmp h1 hret

/-! ## Lemmas on `float64` rounding -/

theorem roundHalfEven_sub_le (y : ℚ) : |(roundHalfEven y : ℚ) - y| ≤ 1 / 2 := by
  have h1 : (⌊y⌋ : ℚ) ≤ y := Int.floor_le y
  have h2 : y < ⌊y⌋ + 1 := Int.lt_floor_add_one y
  unfold roundHalfEven
  simp only
  split_ifs with ha hb hc
  · rw [abs_le]; constructor <;> linarith
  · rw [abs_le]; push_cast; constructor <;> linarith
  · rw [abs_le]; constructor <;> linarith
  · rw [abs_le]; push_cast; constructor <;> linarith

theorem roundHalfEven_intCast (k : ℤ) : roundHalfEven (k : ℚ) = k := by
  unfold roundHalfEven
  simp

theorem roundHalfEven_eq (y : ℚ) (m : ℤ) (h1 : (m : ℚ) - 1 / 2 < y) (h2 : y < m + 1 / 2) :
    roundHalfEven y = m := by
  unfold roundHalfEven
  simp only
  rcases le_or_lt (m : ℚ) y with hle | hlt
  · have hf : ⌊y⌋ = m := by
      rw [Int.floor_eq_iff]
      constructor <;> linarith
    rw [hf, if_pos (by linarith)]
  · have hf : ⌊y⌋ = m - 1 := by
      rw [Int.floor_eq_iff]
      push_cast
      constructor <;> linarith
    rw [hf, if_neg (by push_cast; linarith), if_pos (by push_cast; linarith)]
    ring

theorem two_zpow_pos (k : ℤ) : (0 : ℚ) < (2 : ℚ) ^ k := zpow_pos (by norm_num) k

theorem two_zpow_cancel (e : ℤ) : (2 : ℚ) ^ (52 - e) * (2 : ℚ) ^ (e - 52) = 1 := by
  rw [← zpow_add₀ (by norm_num : (2 : ℚ) ≠ 0)]
  have : 52 - e + (e - 52) = 0 := by ring
  rw [this, zpow_zero]

/-- The relative error of one rounding is at most `2^-53`. -/
theorem round64_sub_le (x : ℚ) (hx : 0 < x) : |round64 x - x| ≤ x / 2 ^ 53 := by
  have hlo : (2 : ℚ) ^ Int.log 2 x ≤ x := by
    have := Int.zpow_log_le_self (b := 2) (r := x) (by norm_num) hx
    simpa using this
  unfold round64
  rw [if_neg (not_le.mpr hx)]
  simp only
  set e := Int.log 2 x with he
  set y := x * (2 : ℚ) ^ (52 - e) with hy
  have hxy : x = y * (2 : ℚ) ^ (e - 52) := by
    rw [hy, mul_assoc, two_zpow_cancel, mul_one]
  have hpos := two_zpow_pos (e - 52)
  have hfac : (roundHalfEven y : ℚ) * (2 : ℚ) ^ (e - 52) - x
      = ((roundHalfEven y : ℚ) - y) * (2 : ℚ) ^ (e - 52) := by
    rw [sub_mul, ← hxy]
  rw [hfac, abs_mul, abs_of_pos hpos]
  have hhalf : (1 / 2 : ℚ) * (2 : ℚ) ^ (e - 52) = (2 : ℚ) ^ e / 2 ^ 53 := by
    have h53 : (2 : ℚ) ^ e = (2 : ℚ) ^ (e - 52) * 2 ^ (52 : ℤ) := by
      rw [← zpow_add₀ (by norm_num : (2 : ℚ) ≠ 0)]
      congr 1
      ring
    rw [h53]
    norm_num
    ring
  calc |(roundHalfEven y : ℚ) - y| * (2 : ℚ) ^ (e - 52)
      ≤ (1 / 2) * (2 : ℚ) ^ (e - 52) :=
        mul_le_mul_of_nonneg_right (roundHalfEven_sub_le y) hpos.le
    _ = (2 : ℚ) ^ e / 2 ^ 53 := hhalf
    _ ≤ x / 2 ^ 53 := by
        apply div_le_div_of_nonneg_right hlo
        positivity

/-- An `int` below `2^53` converts to `float64` exactly. -/
theorem toFloat64_exact (n : Nat) (hn : n < 2 ^ 53) : toFloat64 n = n := by
  unfold toFloat64 round64
  rcases Nat.eq_zero_or_pos n with h0 | hpos
  · subst h0; simp
  · have hx : ¬ ((n : ℚ) ≤ 0) := by
      rw [not_le]
      exact_mod_cast hpos
    rw [if_neg hx]
    simp only [Int.log_natCast]
    have hlog : Nat.log 2 n ≤ 52 := by
      have := (Nat.lt_pow_iff_log_lt (by norm_num : 1 < 2) (Nat.pos_iff_ne_zero.mp hpos)).mp hn
      omega
    obtain ⟨k, hk⟩ : ∃ k : ℕ, (52 : ℤ) - (Nat.log 2 n : ℤ) = k := ⟨52 - Nat.log 2 n, by omega⟩
    have hy : (n : ℚ) * (2 : ℚ) ^ ((52 : ℤ) - (Nat.log 2 n : ℤ)) = ((n * 2 ^ k : ℕ) : ℤ) := by
      rw [hk, zpow_natCast]
      push_cast
      ring
    rw [hy, roundHalfEven_intCast]
    have hback : (((n * 2 ^ k : ℕ) : ℤ) : ℚ) = (n : ℚ) * (2 : ℚ) ^ ((52 : ℤ) - (Nat.log 2 n : ℤ)) := by
      rw [hy]
    rw [hback, mul_assoc, two_zpow_cancel, mul_one]

/-- The value of one rounding, from the binade of `x` and the integer nearest
to its significand. -/
theorem round64_eq (x : ℚ) (e m : ℤ) (hlo : (2 : ℚ) ^ e ≤ x) (hhi : x < (2 : ℚ) ^ (e + 1))
    (h1 : (m : ℚ) - 1 / 2 < x * (2 : ℚ) ^ (52 - e))
    (h2 : x * (2 : ℚ) ^ (52 - e) < m + 1 / 2) :
    round64 x = m * (2 : ℚ) ^ (e - 52) := by
  have hx : 0 < x := lt_of_lt_of_le (two_zpow_pos e) hlo
  have hlog : Int.log 2 x = e := by
    apply le_antisymm
    · have := (Int.lt_zpow_iff_log_lt (b := 2) (by norm_num) hx (x := e + 1)).mp
        (by simpa using hhi)
      omega
    · exact (Int.zpow_le_iff_le_log (b := 2) (by norm_num) hx).mp (by simpa using hlo)
  unfold round64
  rw [if_neg (not_le.mpr hx)]
  simp only [hlog]
  rw [roundHalfEven_eq _ m h1 h2]

/-- The bounds of one rounding in the form used below. -/
theorem round64_bounds (x : ℚ) (hx : 0 < x) :
    x * (1 - 1 / 2 ^ 53) ≤ round64 x ∧ round64 x ≤ x * (1 + 1 / 2 ^ 53) := by
  have h := abs_le.mp (round64_sub_le x hx)
  constructor
  · have := h.1
    linarith
  · have := h.2
    linarith

/-- The computed scale factor lies within one rounding of the ideal one. -/
theorem minRatio_bounds (sw sh tw th : Nat) (hsw : 1 ≤ sw) (hsh : 1 ≤ sh) (htw : 1 ≤ tw)
    (hth : 1 ≤ th) (bsw : sw < 2 ^ 53) (bsh : sh < 2 ^ 53) (btw : tw < 2 ^ 53)
    (bth : th < 2 ^ 53) :
    0 < idealRatio sw sh tw th ∧
    idealRatio sw sh tw th * (1 - 1 / 2 ^ 53) ≤ minRatio sw sh tw th ∧
    minRatio sw sh tw th ≤ idealRatio sw sh tw th * (1 + 1 / 2 ^ 53) := by
  unfold minRatio
  rw [toFloat64_exact sw bsw, toFloat64_exact sh bsh, toFloat64_exact tw btw,
    toFloat64_exact th bth]
  unfold fdiv idealRatio
  have psw : (0 : ℚ) < sw := by exact_mod_cast hsw
  have psh : (0 : ℚ) < sh := by exact_mod_cast hsh
  have ptw : (0 : ℚ) < tw := by exact_mod_cast htw
  have pth : (0 : ℚ) < th := by exact_mod_cast hth
  have hX : (0 : ℚ) < (tw : ℚ) / sw := div_pos ptw psw
  have hY : (0 : ℚ) < (th : ℚ) / sh := div_pos pth psh
  obtain ⟨hxl, hxu⟩ := round64_bounds _ hX
  obtain ⟨hyl, hyu⟩ := round64_bounds _ hY
  have hu1 : (0 : ℚ) ≤ 1 - 1 / 2 ^ 53 := by norm_num
  have hu2 : (0 : ℚ) ≤ 1 + 1 / 2 ^ 53 := by norm_num
  refine ⟨lt_min hX hY, ?_, ?_⟩
  · apply le_min
    · exact le_trans (mul_le_mul_of_nonneg_right (min_le_left _ _) hu1) hxl
    · exact le_trans (mul_le_mul_of_nonneg_right (min_le_right _ _) hu1) hyl
  · rcases min_choice ((tw : ℚ) / sw) ((th : ℚ) / sh) with h | h
    · rw [h]; exact le_trans (min_le_left _ _) hxu
    · rw [h]; exact le_trans (min_le_right _ _) hyu

/-- One output dimension: when the source extent `s` times the ideal factor
`ρ` is the fraction `K / D` with `K` below `2^50`, the computed dimension is
at most that product and less than one below it at worst. -/
theorem dimension_bounds (s K D : Nat) (r ρ : ℚ) (hs : 1 ≤ s) (bs : s < 2 ^ 53) (hD : 1 ≤ D)
    (hK : K < 2 ^ 50) (hρ : 0 < ρ) (hKD : (s : ℚ) * ρ = (K : ℚ) / D)
    (hrl : ρ * (1 - 1 / 2 ^ 53) ≤ r) (hru : r ≤ ρ * (1 + 1 / 2 ^ 53)) :
    ((toInt (fmul (toFloat64 s) r) : Nat) : ℚ) ≤ (s : ℚ) * ρ ∧
      (s : ℚ) * ρ ≤ (toInt (fmul (toFloat64 s) r) : Nat) + 1 := by
  rw [toFloat64_exact s bs]
  unfold fmul toInt
  have ps : (0 : ℚ) < s := by exact_mod_cast hs
  have pD : (0 : ℚ) < D := by exact_mod_cast hD
  have hK' : (K : ℚ) ≤ 2 ^ 50 := by
    have : K ≤ 2 ^ 50 := hK.le
    exact_mod_cast this
  have hK0 : (0 : ℚ) ≤ K := Nat.cast_nonneg K
  have hr : 0 < r := lt_of_lt_of_le (mul_pos hρ (by norm_num)) hrl
  have hsr : 0 < (s : ℚ) * r := mul_pos ps hr
  obtain ⟨hPl, hPu⟩ := round64_bounds _ hsr
  set P := round64 ((s : ℚ) * r) with hP
  have hP0 : 0 ≤ P := le_trans (mul_nonneg hsr.le (by norm_num)) hPl
  have hfl0 : 0 ≤ ⌊P⌋ := Int.floor_nonneg.mpr hP0
  have hcast : ((⌊P⌋.toNat : Nat) : ℚ) = (⌊P⌋ : ℚ) := by
    have h1 : ((⌊P⌋.toNat : Nat) : ℤ) = ⌊P⌋ := Int.toNat_of_nonneg hfl0
    exact_mod_cast h1
  rw [hcast]
  have hfl1 : (⌊P⌋ : ℚ) ≤ P := Int.floor_le P
  have hfl2 : P < ⌊P⌋ + 1 := Int.lt_floor_add_one P
  have hsρD : (s : ℚ) * ρ * D = K := by
    rw [hKD]
    field_simp
  -- the product `P` against `s * ρ`, two roundings away
  have hPup : P ≤ (s : ℚ) * ρ * ((1 + 1 / 2 ^ 53) * (1 + 1 / 2 ^ 53)) := by
    have h1 : (s : ℚ) * r ≤ (s : ℚ) * (ρ * (1 + 1 / 2 ^ 53)) :=
      mul_le_mul_of_nonneg_left hru ps.le
    have h2 : (s : ℚ) * r * (1 + 1 / 2 ^ 53) ≤ (s : ℚ) * (ρ * (1 + 1 / 2 ^ 53)) * (1 + 1 / 2 ^ 53) :=
      mul_le_mul_of_nonneg_right h1 (by norm_num)
    calc P ≤ (s : ℚ) * r * (1 + 1 / 2 ^ 53) := hPu
      _ ≤ (s : ℚ) * (ρ * (1 + 1 / 2 ^ 53)) * (1 + 1 / 2 ^ 53) := h2
      _ = (s : ℚ) * ρ * ((1 + 1 / 2 ^ 53) * (1 + 1 / 2 ^ 53)) := by ring
  have hPlo : (s : ℚ) * ρ * ((1 - 1 / 2 ^ 53) * (1 - 1 / 2 ^ 53)) ≤ P := by
    have h1 : (s : ℚ) * (ρ * (1 - 1 / 2 ^ 53)) ≤ (s : ℚ) * r :=
      mul_le_mul_of_nonneg_left hrl ps.le
    have h2 : (s : ℚ) * (ρ * (1 - 1 / 2 ^ 53)) * (1 - 1 / 2 ^ 53) ≤ (s : ℚ) * r * (1 - 1 / 2 ^ 53) :=
      mul_le_mul_of_nonneg_right h1 (by norm_num)
    calc (s : ℚ) * ρ * ((1 - 1 / 2 ^ 53) * (1 - 1 / 2 ^ 53))
        = (s : ℚ) * (ρ * (1 - 1 / 2 ^ 53)) * (1 - 1 / 2 ^ 53) := by ring
      _ ≤ (s : ℚ) * r * (1 - 1 / 2 ^ 53) := h2
      _ ≤ P := hPl
  -- multiplied by `D`, both sides are integers less than one apart from `K`
  have hup : (⌊P⌋ : ℚ) * D < K + 1 := by
    have h1 : (⌊P⌋ : ℚ) * D ≤ (s : ℚ) * ρ * ((1 + 1 / 2 ^ 53) * (1 + 1 / 2 ^ 53)) * D :=
      mul_le_mul_of_nonneg_right (le_trans hfl1 hPup) pD.le
    have h2 : (s : ℚ) * ρ * ((1 + 1 / 2 ^ 53) * (1 + 1 / 2 ^ 53)) * D
        = K * ((1 + 1 / 2 ^ 53) * (1 + 1 / 2 ^ 53)) := by
      rw [← hsρD]; ring
    have h3 : (K : ℚ) * ((1 + 1 / 2 ^ 53) * (1 + 1 / 2 ^ 53)) < K + 1 := by
      have : (K : ℚ) * ((1 + 1 / 2 ^ 53) * (1 + 1 / 2 ^ 53) - 1) ≤ 2 ^ 50 * ((1 + 1 / 2 ^ 53) * (1 + 1 / 2 ^ 53) - 1) :=
        mul_le_mul_of_nonneg_right hK' (by norm_num)
      have h4 : (2 : ℚ) ^ 50 * ((1 + 1 / 2 ^ 53) * (1 + 1 / 2 ^ 53) - 1) < 1 := by norm_num
      linarith
    linarith
  have hlo : (K : ℚ) - 1 < (⌊P⌋ + 1) * D := by
    have h1 : (s : ℚ) * ρ * ((1 - 1 / 2 ^ 53) * (1 - 1 / 2 ^ 53)) * D < (⌊P⌋ + 1) * D :=
      mul_lt_mul_of_pos_right (lt_of_le_of_lt hPlo hfl2) pD
    have h2 : (s : ℚ) * ρ * ((1 - 1 / 2 ^ 53) * (1 - 1 / 2 ^ 53)) * D
        = K * ((1 - 1 / 2 ^ 53) * (1 - 1 / 2 ^ 53)) := by
      rw [← hsρD]; ring
    have h3 : (K : ℚ) - 1 < K * ((1 - 1 / 2 ^ 53) * (1 - 1 / 2 ^ 53)) := by
      have : (K : ℚ) * (1 - (1 - 1 / 2 ^ 53) * (1 - 1 / 2 ^ 53)) ≤ 2 ^ 50 * (1 - (1 - 1 / 2 ^ 53) * (1 - 1 / 2 ^ 53)) :=
        mul_le_mul_of_nonneg_right hK' (by norm_num)
      have h4 : (2 : ℚ) ^ 50 * (1 - (1 - 1 / 2 ^ 53) * (1 - 1 / 2 ^ 53)) < 1 := by norm_num
      linarith
    linarith
  have hupZ : ⌊P⌋ * (D : ℤ) ≤ K := by
    have : ⌊P⌋ * (D : ℤ) < K + 1 := by exact_mod_cast hup
    omega
  have hloZ : (K : ℤ) ≤ (⌊P⌋ + 1) * (D : ℤ) := by
    have : (K : ℤ) - 1 < (⌊P⌋ + 1) * (D : ℤ) := by exact_mod_cast hlo
    omega
  have hupQ : (⌊P⌋ : ℚ) * D ≤ K := by exact_mod_cast hupZ
  have hloQ : (K : ℚ) ≤ (⌊P⌋ + 1) * D := by exact_mod_cast hloZ
  rw [hKD]
  constructor
  · rw [le_div_iff₀ pD]; exact hupQ
  · rw [div_le_iff₀ pD]; exact hloQ

/-- From the two product bounds, the bound on each dimension. -/
theorem factor_bounds (sw sh tw th : Nat) (hsw : 1 ≤ sw) (hsh : 1 ≤ sh) (htw : 1 ≤ tw)
    (hth : 1 ≤ th) (b1 : sw * th < 2 ^ 50) (b2 : sh * tw < 2 ^ 50) :
    sw < 2 ^ 50 ∧ sh < 2 ^ 50 ∧ tw < 2 ^ 50 ∧ th < 2 ^ 50 := by
  have h1 : sw ≤ sw * th := Nat.le_mul_of_pos_right sw hth
  have h2 : th ≤ sw * th := Nat.le_mul_of_pos_left th hsw
  have h3 : sh ≤ sh * tw := Nat.le_mul_of_pos_right sh htw
  have h4 : tw ≤ sh * tw := Nat.le_mul_of_pos_left tw hsh
  exact ⟨lt_of_le_of_lt h1 b1, lt_of_le_of_lt h3 b2, lt_of_le_of_lt h4 b2, lt_of_le_of_lt h2 b1⟩

/-- Both output dimensions against the ideal ones: each is at most the source
extent times the ideal factor, and at most one below it. -/
theorem outputSize_sandwich (sw sh tw th : Nat) (hsw : 1 ≤ sw) (hsh : 1 ≤ sh) (htw : 1 ≤ tw)
    (hth : 1 ≤ th) (b1 : sw * th < 2 ^ 50) (b2 : sh * tw < 2 ^ 50) :
    ∃ ow oh : Nat, outputSize sw sh tw th = some (ow, oh) ∧
      (ow : ℚ) ≤ sw * idealRatio sw sh tw th ∧ (sw : ℚ) * idealRatio sw sh tw th ≤ ow + 1 ∧
      (oh : ℚ) ≤ sh * idealRatio sw sh tw th ∧ (sh : ℚ) * idealRatio sw sh tw th ≤ oh + 1 := by
  have hne : ¬ (sw = 0 ∨ sh = 0) := by omega
  obtain ⟨bsw, bsh, btw, bth⟩ := factor_bounds sw sh tw th hsw hsh htw hth b1 b2
  have hbig : (2 : Nat) ^ 50 < 2 ^ 53 := by norm_num
  obtain ⟨hρ, hrl, hru⟩ := minRatio_bounds sw sh tw th hsw hsh htw hth
    (lt_trans bsw hbig) (lt_trans bsh hbig) (lt_trans btw hbig) (lt_trans bth hbig)
  have psw : (0 : ℚ) < sw := by exact_mod_cast hsw
  have psh : (0 : ℚ) < sh := by exact_mod_cast hsh
  refine ⟨toInt (fmul (toFloat64 sw) (minRatio sw sh tw th)),
    toInt (fmul (toFloat64 sh) (minRatio sw sh tw th)), ?_, ?_⟩
  · unfold outputSize
    rw [if_neg hne]
  · rcases min_choice ((tw : ℚ) / sw) ((th : ℚ) / sh) with h | h
    · -- the width bound is the tighter one
      have hw : (sw : ℚ) * idealRatio sw sh tw th = ((tw : Nat) : ℚ) / ((1 : Nat) : ℚ) := by
        unfold idealRatio
        rw [h]
        field_simp
      have hh : (sh : ℚ) * idealRatio sw sh tw th = ((sh * tw : Nat) : ℚ) / ((sw : Nat) : ℚ) := by
        unfold idealRatio
        rw [h]
        push_cast
        field_simp
      have c1 := dimension_bounds sw tw 1 _ _ hsw (lt_trans bsw hbig) le_rfl btw hρ hw hrl hru
      have c2 := dimension_bounds sh (sh * tw) sw _ _ hsh (lt_trans bsh hbig) hsw b2 hρ hh
        hrl hru
      exact ⟨c1.1, c1.2, c2.1, c2.2⟩
    · -- the height bound is the tighter one
      have hw : (sw : ℚ) * idealRatio sw sh tw th = ((sw * th : Nat) : ℚ) / ((sh : Nat) : ℚ) := by
        unfold idealRatio
        rw [h]
        push_cast
        field_simp
      have hh : (sh : ℚ) * idealRatio sw sh tw th = ((th : Nat) : ℚ) / ((1 : Nat) : ℚ) := by
        unfold idealRatio
        rw [h]
        field_simp
      have c1 := dimension_bounds sw (sw * th) sh _ _ hsw (lt_trans bsw hbig) hsh b1 hρ hw
        hrl hru
      have c2 := dimension_bounds sh th 1 _ _ hsh (lt_trans bsh hbig) le_rfl bth hρ hh hrl hru
      exact ⟨c1.1, c1.2, c2.1, c2.2⟩

theorem toInt_eq (f : ℚ) (n : Nat) (h1 : (n : ℚ) ≤ f) (h2 : f < n + 1) : toInt f = n := by
  unfold toInt
  have : ⌊f⌋ = (n : ℤ) := by
    rw [Int.floor_eq_iff]
    constructor
    · exact_mod_cast h1
    · exact_mod_cast h2
  rw [this]
  simp

/-! ## Size validation: theorems -/

/-- C7: `validateSize` returns true for the empty string and for every string
made of one or more decimal digits, one `x` or `X`, and one or more decimal
digits, however many digits there are. -/
theorem validateSize_accepts_whole :
    validateSize "" = true ∧ ∀ s : String, WholeSize s → validateSize s = true := by
  refine ⟨by decide, ?_⟩
  intro s hs
  simp [validateSize, wholeSize_matchString s hs]

/-- Witness for C7 at `1024123X733368`. -/
theorem validateSize_accepts_whole_witness :
    WholeSize "1024123X733368" ∧ validateSize "1024123X733368" = true :=
  have hw : WholeSize "1024123X733368" :=
    ⟨['1', '0', '2', '4', '1', '2', '3'], ['7', '3', '3', '3', '6', '8'], 'X',
      by decide, by decide, by decide, by decide, by decide, by decide⟩
  ⟨hw, validateSize_accepts_whole.2 "1024123X733368" hw⟩

/-- C8, at the input `1920x1080px`: the string is not empty and is not, as a
whole, digits-separator-digits, and `validateSize` returns true for it, the
pattern being unanchored. -/
theorem validateSize_accepts_trailing_text :
    "1920x1080px" ≠ "" ∧ ¬ WholeSize "1920x1080px" ∧ validateSize "1920x1080px" = true := by
  refine ⟨by decide, ?_, ?_⟩
  · rintro ⟨ds1, ds2, c, _, h2, _, hd2, _, hs⟩
    have hlast : (ds1 ++ c :: ds2).getLast? = some 'x' := by rw [← hs]; rfl
    obtain ⟨d, rest, rfl⟩ := List.exists_cons_of_ne_nil h2
    have hmem : 'x' ∈ d :: rest := by
      have h3 : (ds1 ++ c :: d :: rest).getLast? = (d :: rest).getLast? := by
        rw [List.getLast?_append, List.getLast?_cons_cons]
        rfl
      rw [h3] at hlast
      exact List.mem_of_getLast?_eq_some hlast
    exact absurd (hd2 'x' hmem) (by decide)
  · decide

/-! ## Feed resolution: theorem -/

/-- C9: on a successfully decoded payload `findImagePath` is decided by the
first image entry alone: no entry gives `NoImagesError`, a first entry with an
empty (or absent) url gives `NoImagePathError`, any other first entry gives its
url and no error, whatever the remaining entries are; so two payloads with the
same first entry give the same result. -/
theorem findImagePath_first_entry (unmarshal : List UInt8 → Option BingResponse) :
    (∀ data, unmarshal data = some ⟨[]⟩ →
      findImagePath unmarshal data = .error .NoImagesError) ∧
    (∀ data image rest, unmarshal data = some ⟨image :: rest⟩ → image.Url = "" →
      findImagePath unmarshal data = .error .NoImagePathError) ∧
    (∀ data image rest, unmarshal data = some ⟨image :: rest⟩ → image.Url ≠ "" →
      findImagePath unmarshal data = .ok image.Url) ∧
    (∀ data₁ data₂ js₁ js₂, unmarshal data₁ = some js₁ → unmarshal data₂ = some js₂ →
      js₁.Images.head? = js₂.Images.head? →
      findImagePath unmarshal data₁ = findImagePath unmarshal data₂) := by
  refine ⟨?_, ?_, ?_, ?_⟩
  · intro data h
    simp [findImagePath, h]
  · intro data image rest h hurl
    simp [findImagePath, h, hurl]
  · intro data image rest h hurl
    have hlen : image.Url.length ≠ 0 := by
      intro h0
      apply hurl
      have hdata : image.Url.data = [] := List.length_eq_zero.mp h0
      exact String.ext hdata
    simp [findImagePath, h, hlen]
  · intro data₁ data₂ js₁ js₂ h₁ h₂ hhead
    obtain ⟨im₁⟩ := js₁
    obtain ⟨im₂⟩ := js₂
    cases im₁ with
    | nil =>
      cases im₂ with
      | nil => simp [findImagePath, h₁, h₂]
      | cons b t => simp at hhead
    | cons a t₁ =>
      cases im₂ with
      | nil => simp at hhead
      | cons b t₂ =>
        have hab : a = b := by simpa using hhead
        subst hab
        simp [findImagePath, h₁, h₂]

/-- Witness for C9: a decoder that yields two entries, the first with url
`image.jpg`. -/
theorem findImagePath_first_entry_witness :
    findImagePath (fun _ => some ⟨[⟨"image.jpg"⟩, ⟨""⟩]⟩) [] = .ok "image.jpg" :=
  (findImagePath_first_entry (fun _ => some ⟨[⟨"image.jpg"⟩, ⟨""⟩]⟩)).2.2.1
    [] ⟨"image.jpg"⟩ [⟨""⟩] rfl (by decide)

/-! ## Existence check: theorem -/

/-- C10, at a `stat` that fails with an error other than not-exist:
`fileExists` returns false for a missing path and the negated `IsDir` for a
file info, and it panics on the nil file info of any other error; a call of
`saveAndBackupImage` in which `os.Stat` fails so panics inside the check. -/
theorem fileExists_panics_on_other_error :
    fileExists .errNotExist = some false ∧
    (∀ isDir, fileExists (.info isDir) = some (!isDir)) ∧
    fileExists .errOther = none ∧
    Stat statErrorEnv picsWithDaily ["pics", "daily.jpg"] = .errOther ∧
    (saveAndBackupImage rejectingCodec statErrorEnv picsWithDaily [9] ["pics", "daily.jpg"]
      "").panics = true := by
  refine ⟨rfl, fun _ => rfl, rfl, ?_, ?_⟩
  · decide
  · decide

/-! ## The publisher: theorems -/

/-- C1, as stated, fails where the destination is itself the dated name: on
4 November 2026 with `/pics/20261103.jpg` as destination the call returns nil,
and the file named with yesterday's date, being the destination, holds the new
bytes and not the old ones. -/
theorem saveAndBackupImage_dated_destination :
    picsWithDated ["pics", "20261103.jpg"] = some (.file [1, 2]) ∧
    (saveAndBackupImage rejectingCodec calmEnv picsWithDated [9] ["pics", "20261103.jpg"]
      "").returnsNil = true ∧
    prevDateFileName calmEnv ["pics", "20261103.jpg"] = ["pics", "20261103.jpg"] ∧
    (saveAndBackupImage rejectingCodec calmEnv picsWithDated [9] ["pics", "20261103.jpg"]
      "").fs (prevDateFileName calmEnv ["pics", "20261103.jpg"]) ≠ some (.file [1, 2]) := by
  decide

/-- C1, amended: when a regular file with content `old` is at `out`, `out` is
not itself the path of yesterday's dated name, every byte of `data` is written
to the temporary file, and `saveAndBackupImage(data, out, "")` returns nil,
then afterwards the dated file in the directory of `out` holds exactly `old`
and `out` holds exactly `data`. -/
theorem saveAndBackupImage_backup_and_publish (codec : Codec) (env : Env) (fs : FS)
    (data old : Bytes) (out : Path)
    (hold : fs out = some (.file old))
    (hne : out ≠ prevDateFileName env out)
    (hcopy : ∀ cap, env.writeCap = some cap → data.length ≤ cap)
    (hret : (saveAndBackupImage codec env fs data out "").returnsNil = true) :
    (saveAndBackupImage codec env fs data out "").fs (prevDateFileName env out)
        = some (.file old) ∧
      (saveAndBackupImage codec env fs data out "").fs out = some (.file data) := by
  unfold saveAndBackupImage at hret ⊢
  cases hct : CreateTemp env fs (Dir out) with
  | none =>
    rw [hct] at hret
    simp [Outcome.returnsNil] at hret
  | some pr =>
    obtain ⟨tmp, fs1⟩ := pr
    obtain ⟨⟨r, hr⟩, hnone, hfs1⟩ := CreateTemp_spec env fs (Dir out) tmp fs1 hct
    have h1 : tmp ≠ out := by
      intro h
      rw [h, hold] at hnone
      exact absurd hnone (by simp)
    have h2 : tmp ≠ prevDateFileName env out := by
      intro h
      rw [hr] at h
      exact tmpName_ne_formatDate r env.yesterday (Join_injective _ _ _ h)
    rw [hct] at hret
    simp only [ne_eq, not_true_eq_false, if_false] at hret ⊢
    rw [writeBytes_complete env fs1 tmp data hcopy] at hret ⊢
    have hout2 : (fs1.set tmp (some (.file data))) out = some (.file old) := by
      rw [FS.set_other _ _ _ _ (Ne.symm h1), hfs1, FS.set_other _ _ _ _ (Ne.symm h1), hold]
    have htmp2 : (fs1.set tmp (some (.file data))) tmp = some (.file data) := FS.set_same _ _ _
    have hb2 : belowFile (fs1.set tmp (some (.file data))) out = false :=
      belowFile_after_CreateTemp env fs out tmp fs1 _ hct
    rw [backupAndPromote_existing env _ tmp out old data hout2 htmp2 hb2 h1 h2 hne hret]
    constructor
    · rw [FS.set_other _ _ _ _ (Ne.symm hne), FS.set_other _ _ _ _ (Ne.symm h2), FS.set_same]
    · rw [FS.set_same]

/-- Witness for C1 amended: `/pics/daily.jpg` holding `1, 2` is replaced by
`9`, and `/pics/20261103.jpg` holds `1, 2` afterwards. -/
theorem saveAndBackupImage_backup_and_publish_witness :
    (saveAndBackupImage rejectingCodec calmEnv picsWithDaily [9] ["pics", "daily.jpg"]
        "").fs (prevDateFileName calmEnv ["pics", "daily.jpg"]) = some (.file [1, 2]) ∧
      (saveAndBackupImage rejectingCodec calmEnv picsWithDaily [9] ["pics", "daily.jpg"]
        "").fs ["pics", "daily.jpg"] = some (.file [9]) :=
  saveAndBackupImage_backup_and_publish rejectingCodec calmEnv picsWithDaily [9] [1, 2]
    ["pics", "daily.jpg"] (by decide) (by decide) (by intro cap h; simp [calmEnv] at h)
    (by decide)

/-- When nothing is at `out`, every byte of `data` is written to the temporary
file and `saveAndBackupImage(data, out, "")` returns nil, the state afterwards
is the state before with `out` holding exactly `data`: no backup file, no
temporary file. -/
theorem saveAndBackupImage_fresh_complete_copy (codec : Codec) (env : Env) (fs : FS)
    (data : Bytes) (out : Path)
    (hout : fs out = none)
    (hcopy : ∀ cap, env.writeCap = some cap → data.length ≤ cap)
    (hret : (saveAndBackupImage codec env fs data out "").returnsNil = true) :
    (saveAndBackupImage codec env fs data out "").fs = fs.set out (some (.file data)) := by
  unfold saveAndBackupImage at hret ⊢
  cases hct : CreateTemp env fs (Dir out) with
  | none =>
    rw [hct] at hret
    simp [Outcome.returnsNil] at hret
  | some pr =>
    obtain ⟨tmp, fs1⟩ := pr
    obtain ⟨_, hnone, hfs1⟩ := CreateTemp_spec env fs (Dir out) tmp fs1 hct
    rw [hct] at hret
    simp only [ne_eq, not_true_eq_false, if_false] at hret ⊢
    rw [writeBytes_complete env fs1 tmp data hcopy] at hret ⊢
    have htmp2 : (fs1.set tmp (some (.file data))) tmp = some (.file data) := FS.set_same _ _ _
    have hb2 : belowFile (fs1.set tmp (some (.file data))) out = false :=
      belowFile_after_CreateTemp env fs out tmp fs1 _ hct
    by_cases h1 : tmp = out
    · -- the temporary file was created at `out` itself: it is moved to the
      -- dated name and the promotion finds no source
      exfalso
      subst h1
      unfold backupAndPromote at hret
      cases hs : env.statFault tmp with
      | true =>
        rw [Stat_fault env _ tmp hs] at hret
        simp [fileExists, Outcome.returnsNil] at hret
      | false =>
        rw [Stat_file env _ tmp data hs hb2 htmp2] at hret
        simp only [fileExists, Bool.not_false] at hret
        obtain ⟨r, hr⟩ := (CreateTemp_spec env fs (Dir tmp) tmp fs1 hct).1
        have hne : tmp ≠ prevDateFileName env tmp := by
          intro h
          have h' : Join (Dir tmp) (tmpName r) = Join (Dir tmp) (formatDate env.yesterday) := by
            rw [← hr]; exact h
          exact tmpName_ne_formatDate r env.yesterday (Join_injective _ _ _ h')
        cases hf : env.renameFault tmp (prevDateFileName env tmp) with
        | true =>
          rw [Rename_fault env _ _ _ hf] at hret
          simp [Outcome.returnsNil] at hret
        | false =>
          by_cases hd : (fs1.set tmp (some (.file data))) (prevDateFileName env tmp) = some .dir
          · rw [Rename_onto_dir env _ _ _ hne hd] at hret
            simp [Outcome.returnsNil] at hret
          · rw [Rename_file env _ _ _ data hf htmp2 hne hd] at hret
            simp only [promote, Rename] at hret
            have hgone : (((fs1.set tmp (some (.file data))).set tmp none).set
                (prevDateFileName env tmp) (some (.file data))) tmp = none := by
              rw [FS.set_other _ _ _ _ hne, FS.set_same]
            rw [hgone] at hret
            cases hf2 : env.renameFault tmp tmp <;> simp [hf2, Outcome.returnsNil] at hret
    · have hout2 : (fs1.set tmp (some (.file data))) out = none := by
        rw [FS.set_other _ _ _ _ (Ne.symm h1), hfs1, FS.set_other _ _ _ _ (Ne.symm h1), hout]
      rw [backupAndPromote_fresh env _ tmp out data hout2 htmp2 hb2 h1 hret, hfs1]
      funext q
      by_cases hq : q = out
      · subst hq; simp [FS.set]
      · by_cases hq2 : q = tmp
        · subst hq2; simp [FS.set, hq, hnone]
        · simp [FS.set, hq, hq2]

/-- C2, at a write that fails: with nothing at `/pics/daily.jpg` and a
temporary file that accepts one byte only, `saveAndBackupImage` of the three
bytes `7, 8, 9` returns nil and leaves `/pics/daily.jpg` holding `7` alone. -/
theorem saveAndBackupImage_fresh_short_write :
    emptyPics ["pics", "daily.jpg"] = none ∧
    (writeBytes fullDiskEnv emptyPics ["pics", "tmp_7.jpg"] [7, 8, 9]).2 = false ∧
    (saveAndBackupImage rejectingCodec fullDiskEnv emptyPics [7, 8, 9] ["pics", "daily.jpg"]
      "").returnsNil = true ∧
    (saveAndBackupImage rejectingCodec fullDiskEnv emptyPics [7, 8, 9] ["pics", "daily.jpg"]
      "").fs ["pics", "daily.jpg"] = some (.file [7]) := by
  decide

/-- C5, as stated, fails where the temporary file can not be removed: with
the empty byte sequence, size `1x1` and an operating system that refuses the
removal, the call returns an error and `/pics/tmp_7.jpg`, absent before, is
left behind, so the file system is not what it was. -/
theorem saveAndBackupImage_decode_failure_temp_left :
    "1x1" ≠ "" ∧ validateSize "1x1" = true ∧ rejectingCodec.decode [] = none ∧
    (saveAndBackupImage rejectingCodec noUnlinkEnv picsWithDaily [] ["pics", "daily.jpg"]
      "1x1").returnsError = true ∧
    picsWithDaily ["pics", "tmp_7.jpg"] = none ∧
    (saveAndBackupImage rejectingCodec noUnlinkEnv picsWithDaily [] ["pics", "daily.jpg"]
      "1x1").fs ["pics", "tmp_7.jpg"] = some (.file []) ∧
    (saveAndBackupImage rejectingCodec noUnlinkEnv picsWithDaily [] ["pics", "daily.jpg"]
      "1x1").fs ≠ picsWithDaily := by
  refine ⟨by decide, by decide, rfl, by decide, by decide, by decide, ?_⟩
  intro h
  have h' := congrFun h ["pics", "tmp_7.jpg"]
  revert h'
  decide

/-- C5, amended: for a non-empty valid size string and bytes that do not
decode, `saveAndBackupImage` returns an error, and when the operating system
does not refuse the removal of the temporary file it leaves the file system
as it was: the temporary file is removed, nothing new is at `out`, nothing is
moved. -/
theorem saveAndBackupImage_decode_failure (codec : Codec) (env : Env) (fs : FS)
    (data : Bytes) (out : Path) (sz : String)
    (hsz : sz ≠ "") (_hvalid : validateSize sz = true) (hdec : codec.decode data = none)
    (hrm : ∀ tmp fs1, CreateTemp env fs (Dir out) = some (tmp, fs1) →
      env.removeFault tmp = false) :
    (saveAndBackupImage codec env fs data out sz).returnsError = true ∧
      (saveAndBackupImage codec env fs data out sz).fs = fs := by
  unfold saveAndBackupImage
  cases hct : CreateTemp env fs (Dir out) with
  | none => simp [Outcome.returnsError, Outcome.fs]
  | some pr =>
    obtain ⟨tmp, fs1⟩ := pr
    obtain ⟨_, hnone, hfs1⟩ := CreateTemp_spec env fs (Dir out) tmp fs1 hct
    have hfault : env.removeFault tmp = false := hrm tmp fs1 hct
    have htmp : fs1 tmp = some (.file []) := by rw [hfs1]; exact FS.set_same _ _ _
    simp only [ne_eq, hsz, not_false_eq_true, if_true, writeResizedImage, hdec,
      Outcome.returnsError, Outcome.fs, Remove, hfault, htmp, true_and, Bool.false_eq_true,
      if_false]
    rw [hfs1]
    exact FS.set_set_none fs tmp _ hnone

/-- Witness for C5 amended: the empty byte sequence with size `1x1`, no
removal refused. -/
theorem saveAndBackupImage_decode_failure_witness :
    (saveAndBackupImage rejectingCodec calmEnv picsWithDaily [] ["pics", "daily.jpg"]
        "1x1").returnsError = true ∧
      (saveAndBackupImage rejectingCodec calmEnv picsWithDaily [] ["pics", "daily.jpg"]
        "1x1").fs = picsWithDaily :=
  saveAndBackupImage_decode_failure rejectingCodec calmEnv picsWithDaily []
    ["pics", "daily.jpg"] "1x1" (by decide) (by decide) rfl (fun _ _ _ => rfl)

/-- C6, at a copy that fails with an empty size string: with `/pics/daily.jpg`
holding `1, 2` and a temporary file that accepts one byte only,
`saveAndBackupImage` of `7, 8, 9` returns nil, the previous file is moved to
the dated name and the destination replaced by the truncated bytes. -/
theorem saveAndBackupImage_copy_error_ignored :
    (writeBytes fullDiskEnv picsWithDaily ["pics", "tmp_7.jpg"] [7, 8, 9]).2 = false ∧
    (saveAndBackupImage rejectingCodec fullDiskEnv picsWithDaily [7, 8, 9]
      ["pics", "daily.jpg"] "").returnsNil = true ∧
    (saveAndBackupImage rejectingCodec fullDiskEnv picsWithDaily [7, 8, 9]
      ["pics", "daily.jpg"] "").fs ["pics", "20261103.jpg"] = some (.file [1, 2]) ∧
    (saveAndBackupImage rejectingCodec fullDiskEnv picsWithDaily [7, 8, 9]
      ["pics", "daily.jpg"] "").fs ["pics", "daily.jpg"] = some (.file [7]) := by
  decide

/-! ## Resized dimensions: theorems -/

/-- C3, as stated, fails for the 3840x2160 source and the size `139x78`: the
ideal dimensions are 138x78, touching the height bound, and the `float64`
computation gives 138x77, touching neither bound. -/
theorem outputSize_touches_no_bound :
    outputSize 3840 2160 139 78 = some (138, 77) ∧ ¬ ((138 : Nat) = 139 ∨ (77 : Nat) = 78) := by
  have hX : fdiv (toFloat64 139) (toFloat64 3840) = 5216669568370825 / 2 ^ 57 := by
    rw [toFloat64_exact 139 (by norm_num), toFloat64_exact 3840 (by norm_num)]
    unfold fdiv
    rw [round64_eq _ (-5) 5216669568370825 (by norm_num) (by norm_num) (by norm_num)
      (by norm_num)]
    norm_num
  have hY : fdiv (toFloat64 78) (toFloat64 2160) = 5204159569405906 / 2 ^ 57 := by
    rw [toFloat64_exact 78 (by norm_num), toFloat64_exact 2160 (by norm_num)]
    unfold fdiv
    rw [round64_eq _ (-5) 5204159569405906 (by norm_num) (by norm_num) (by norm_num)
      (by norm_num)]
    norm_num
  have hr : minRatio 3840 2160 139 78 = 5204159569405906 / 2 ^ 57 := by
    unfold minRatio
    rw [hX, hY]
    exact min_eq_right (by norm_num)
  have hW : fmul (toFloat64 3840) (minRatio 3840 2160 139 78) = 4878899596318037 / 2 ^ 45 := by
    rw [hr, toFloat64_exact 3840 (by norm_num)]
    unfold fmul
    rw [round64_eq _ 7 4878899596318037 (by norm_num) (by norm_num) (by norm_num)
      (by norm_num)]
    norm_num
  have hH : fmul (toFloat64 2160) (minRatio 3840 2160 139 78) = 5488762045857791 / 2 ^ 46 := by
    rw [hr, toFloat64_exact 2160 (by norm_num)]
    unfold fmul
    rw [round64_eq _ 6 5488762045857791 (by norm_num) (by norm_num) (by norm_num)
      (by norm_num)]
    norm_num
  refine ⟨?_, by decide⟩
  unfold outputSize
  rw [if_neg (by decide), hW, hH, toInt_eq _ 138 (by norm_num) (by norm_num),
    toInt_eq _ 77 (by norm_num) (by norm_num)]

/-- C3, amended: for source and target dimensions of at least 1 with
`sw * th < 2^50` and `sh * tw < 2^50` (every dimension below `2^25` will do)
the output dimensions exist and satisfy `ow ≤ tw` and `oh ≤ th`, and at least
one of them is within one pixel of its bound: `tw ≤ ow + 1` or `th ≤ oh + 1`. -/
theorem outputSize_fits_within_one (sw sh tw th : Nat) (hsw : 1 ≤ sw) (hsh : 1 ≤ sh)
    (htw : 1 ≤ tw) (hth : 1 ≤ th) (b1 : sw * th < 2 ^ 50) (b2 : sh * tw < 2 ^ 50) :
    ∃ ow oh : Nat, outputSize sw sh tw th = some (ow, oh) ∧
      ow ≤ tw ∧ oh ≤ th ∧ (tw ≤ ow + 1 ∨ th ≤ oh + 1) := by
  obtain ⟨ow, oh, hout, hw1, hw2, hh1, hh2⟩ :=
    outputSize_sandwich sw sh tw th hsw hsh htw hth b1 b2
  have psw : (0 : ℚ) < sw := by exact_mod_cast hsw
  have psh : (0 : ℚ) < sh := by exact_mod_cast hsh
  have eW : (sw : ℚ) * ((tw : ℚ) / sw) = tw := by field_simp
  have eH : (sh : ℚ) * ((th : ℚ) / sh) = th := by field_simp
  have hρw : (sw : ℚ) * idealRatio sw sh tw th ≤ tw := by
    rw [← eW]
    exact mul_le_mul_of_nonneg_left (min_le_left _ _) psw.le
  have hρh : (sh : ℚ) * idealRatio sw sh tw th ≤ th := by
    rw [← eH]
    exact mul_le_mul_of_nonneg_left (min_le_right _ _) psh.le
  refine ⟨ow, oh, hout, ?_, ?_, ?_⟩
  · exact_mod_cast le_trans hw1 hρw
  · exact_mod_cast le_trans hh1 hρh
  · rcases min_choice ((tw : ℚ) / sw) ((th : ℚ) / sh) with h | h
    · left
      have : (tw : ℚ) ≤ ow + 1 := by
        have h' : idealRatio sw sh tw th = (tw : ℚ) / sw := h
        rw [h', eW] at hw2
        exact hw2
      exact_mod_cast this
    · right
      have : (th : ℚ) ≤ oh + 1 := by
        have h' : idealRatio sw sh tw th = (th : ℚ) / sh := h
        rw [h', eH] at hh2
        exact hh2
      exact_mod_cast this

/-- Witness for C3 amended: the 3840x2160 source and the size `1920x1080`. -/
theorem outputSize_fits_within_one_witness :
    ∃ ow oh : Nat, outputSize 3840 2160 1920 1080 = some (ow, oh) ∧
      ow ≤ 1920 ∧ oh ≤ 1080 ∧ (1920 ≤ ow + 1 ∨ 1080 ≤ oh + 1) :=
  outputSize_fits_within_one 3840 2160 1920 1080 (by decide) (by decide) (by decide)
    (by decide) (by norm_num) (by norm_num)

/-- C4, as stated, fails for the 1920x1200 source and the size `88x55`: the
computation gives 88x54, so `|ow*sh - oh*sw| = 1920 = max(sw, sh)`, not less;
`oh = 54` is not above `sh * ratio - 1 = 54` for the ideal ratio, and `ow = 88`
is above `sw * minRatio` for the computed one. -/
theorem outputSize_aspect_bound_not_strict :
    outputSize 1920 1200 88 55 = some (88, 54) ∧
    ¬ (|(88 : ℤ) * 1200 - 54 * 1920| < max 1920 1200) ∧
    ¬ ((1200 : ℚ) * idealRatio 1920 1200 88 55 - 1 < 54) ∧
    ¬ ((88 : ℚ) ≤ 1920 * minRatio 1920 1200 88 55) := by
  have hX : fdiv (toFloat64 88) (toFloat64 1920) = 6605279453476727 / 2 ^ 57 := by
    rw [toFloat64_exact 88 (by norm_num), toFloat64_exact 1920 (by norm_num)]
    unfold fdiv
    rw [round64_eq _ (-5) 6605279453476727 (by norm_num) (by norm_num) (by norm_num)
      (by norm_num)]
    norm_num
  have hY : fdiv (toFloat64 55) (toFloat64 1200) = 6605279453476727 / 2 ^ 57 := by
    rw [toFloat64_exact 55 (by norm_num), toFloat64_exact 1200 (by norm_num)]
    unfold fdiv
    rw [round64_eq _ (-5) 6605279453476727 (by norm_num) (by norm_num) (by norm_num)
      (by norm_num)]
    norm_num
  have hr : minRatio 1920 1200 88 55 = 6605279453476727 / 2 ^ 57 := by
    unfold minRatio
    rw [hX, hY, min_self]
  have hW : fmul (toFloat64 1920) (minRatio 1920 1200 88 55) = 88 := by
    rw [hr, toFloat64_exact 1920 (by norm_num)]
    unfold fmul
    rw [round64_eq _ 6 6192449487634432 (by norm_num) (by norm_num) (by norm_num)
      (by norm_num)]
    norm_num
  have hH : fmul (toFloat64 1200) (minRatio 1920 1200 88 55) = 7740561859543039 / 2 ^ 47 := by
    rw [hr, toFloat64_exact 1200 (by norm_num)]
    unfold fmul
    rw [round64_eq _ 5 7740561859543039 (by norm_num) (by norm_num) (by norm_num)
      (by norm_num)]
    norm_num
  refine ⟨?_, by decide, ?_, ?_⟩
  · unfold outputSize
    rw [if_neg (by decide), hW, hH, toInt_eq _ 88 (by norm_num) (by norm_num),
      toInt_eq _ 54 (by norm_num) (by norm_num)]
  · unfold idealRatio
    norm_num
  · rw [hr]
    norm_num

/-- C4, amended: for source and target dimensions of at least 1 with
`sw * th < 2^50` and `sh * tw < 2^50` (every dimension below `2^25` will do),
with `ratio = min(tw / sw, th / sh)` the ideal factor, the output dimensions
exist and satisfy `sw*ratio - 1 ≤ ow ≤ sw*ratio` and
`sh*ratio - 1 ≤ oh ≤ sh*ratio`, hence `|ow*sh - oh*sw| ≤ max(sw, sh)`. -/
theorem outputSize_aspect_ratio (sw sh tw th : Nat) (hsw : 1 ≤ sw) (hsh : 1 ≤ sh)
    (htw : 1 ≤ tw) (hth : 1 ≤ th) (b1 : sw * th < 2 ^ 50) (b2 : sh * tw < 2 ^ 50) :
    ∃ ow oh : Nat, outputSize sw sh tw th = some (ow, oh) ∧
      (sw : ℚ) * idealRatio sw sh tw th - 1 ≤ ow ∧ (ow : ℚ) ≤ sw * idealRatio sw sh tw th ∧
      (sh : ℚ) * idealRatio sw sh tw th - 1 ≤ oh ∧ (oh : ℚ) ≤ sh * idealRatio sw sh tw th ∧
      |(ow : ℤ) * sh - oh * sw| ≤ max (sw : ℤ) sh := by
  obtain ⟨ow, oh, hout, hw1, hw2, hh1, hh2⟩ :=
    outputSize_sandwich sw sh tw th hsw hsh htw hth b1 b2
  have psw : (0 : ℚ) < sw := by exact_mod_cast hsw
  have psh : (0 : ℚ) < sh := by exact_mod_cast hsh
  refine ⟨ow, oh, hout, by linarith, hw1, by linarith, hh1, ?_⟩
  set ρ := idealRatio sw sh tw th
  have hA : (ow : ℚ) * sh - oh * sw ≤ sw := by
    have h1 : (ow : ℚ) * sh ≤ sw * ρ * sh := mul_le_mul_of_nonneg_right hw1 psh.le
    have h2 : (sh : ℚ) * ρ * sw ≤ ((oh : ℚ) + 1) * sw := mul_le_mul_of_nonneg_right hh2 psw.le
    nlinarith
  have hB : (oh : ℚ) * sw - ow * sh ≤ sh := by
    have h1 : (oh : ℚ) * sw ≤ sh * ρ * sw := mul_le_mul_of_nonneg_right hh1 psw.le
    have h2 : (sw : ℚ) * ρ * sh ≤ ((ow : ℚ) + 1) * sh := mul_le_mul_of_nonneg_right hw2 psh.le
    nlinarith
  have hAZ : (ow : ℤ) * sh - oh * sw ≤ sw := by exact_mod_cast hA
  have hBZ : (oh : ℤ) * sw - ow * sh ≤ sh := by exact_mod_cast hB
  rw [abs_le]
  constructor
  · have : (sh : ℤ) ≤ max (sw : ℤ) sh := le_max_right _ _
    linarith
  · have : (sw : ℤ) ≤ max (sw : ℤ) sh := le_max_left _ _
    linarith

/-- Witness for C4 amended: the 1920x1200 source and the size `88x55`. -/
theorem outputSize_aspect_ratio_witness :
    ∃ ow oh : Nat, outputSize 1920 1200 88 55 = some (ow, oh) ∧
      (1920 : ℚ) * idealRatio 1920 1200 88 55 - 1 ≤ ow ∧
      (ow : ℚ) ≤ 1920 * idealRatio 1920 1200 88 55 ∧
      (1200 : ℚ) * idealRatio 1920 1200 88 55 - 1 ≤ oh ∧
      (oh : ℚ) ≤ 1200 * idealRatio 1920 1200 88 55 ∧
      |(ow : ℤ) * 1200 - oh * 1920| ≤ max (1920 : ℤ) 1200 := by
  simpa using outputSize_aspect_ratio 1920 1200 88 55 (by decide) (by decide) (by decide)
    (by decide) (by norm_num) (by norm_num)

end Bingwp
